import Mathlib

/-!
Verification of the `dfx upgrade` self-update subsystem
(`src/dfx/src/commands/upgrade.rs`).

The development shallowly embeds the code: the semver data model and
ordering of the `semver` crate (v0.9) as used by the code, the manifest
deserializers, the latest-version resolution, the release URL formatting,
and the filesystem-mutating release fetch and `exec` control flow as
explicit state passing over a small filesystem model.
-/

namespace Upgrade

/-! ## Semantic versions (the `semver` crate data model) -/

/-- A pre-release or build identifier: numeric or alphanumeric,
as in the `semver` crate's `Identifier` enum. -/
inductive Identifier where
  | numeric (n : Nat)
  | alphaNumeric (s : String)
deriving DecidableEq, Repr

/-- `semver::Version`: major.minor.patch with pre-release and build
identifier lists. -/
structure Version where
  major : Nat
  minor : Nat
  patch : Nat
  pre : List Identifier
  build : List Identifier
deriving DecidableEq, Repr

/-- Comparison of characters by code point. UTF-8 byte order coincides
with code-point order, so this matches Rust's byte-wise `str` ordering. -/
def charCompare (a b : Char) : Ordering := compare a.toNat b.toNat

/-- Lexicographic comparison of character lists (Rust's `str`/`Vec<u8>`
ordering). -/
def charListCompare : List Char → List Char → Ordering
  | [], [] => .eq
  | [], _ :: _ => .lt
  | _ :: _, [] => .gt
  | a :: as, b :: bs =>
    match charCompare a b with
    | .eq => charListCompare as bs
    | o => o

/-- Rust `String` ordering: byte-wise lexicographic. -/
def strCompare (a b : String) : Ordering := charListCompare a.data b.data

/-- The `semver` crate's derived `Ord` on `Identifier`: numeric identifiers
compare numerically, alphanumeric ones lexicographically, and any numeric
identifier is less than any alphanumeric one. -/
def identCompare : Identifier → Identifier → Ordering
  | .numeric a, .numeric b => compare a b
  | .numeric _, .alphaNumeric _ => .lt
  | .alphaNumeric _, .numeric _ => .gt
  | .alphaNumeric a, .alphaNumeric b => strCompare a b

/-- Rust `Vec` ordering on identifier lists: lexicographic, a strict prefix
being less. -/
def identListCompare : List Identifier → List Identifier → Ordering
  | [], [] => .eq
  | [], _ :: _ => .lt
  | _ :: _, [] => .gt
  | a :: as, b :: bs =>
    match identCompare a b with
    | .eq => identListCompare as bs
    | o => o

/-- The `semver` crate's `impl Ord for Version`: compare major, minor,
patch; then a version with a pre-release is less than the same version
without one; otherwise pre-release lists compare lexicographically.
Build metadata is ignored. -/
def versionCompare (a b : Version) : Ordering :=
  match compare a.major b.major with
  | .eq =>
    match compare a.minor b.minor with
    | .eq =>
      match compare a.patch b.patch with
      | .eq =>
        match a.pre, b.pre with
        | [], [] => .eq
        | [], _ :: _ => .gt
        | _ :: _, [] => .lt
        | ap, bp => identListCompare ap bp
      | o => o
    | o => o
  | o => o

/-- Rust `latest > current` on `semver::Version`. -/
def versionGt (a b : Version) : Bool := versionCompare a b == Ordering.gt

/-! ## `is_upgrade_necessary` -/

/-- `is_upgrade_necessary` from `upgrade.rs`: upgrade when no latest
version is known, or when the latest is strictly newer. -/
def is_upgrade_necessary (latest_version : Option Version) (current : Version) : Bool :=
  match latest_version with
  | some latest => versionGt latest current
  | none => true

/-! ### Reflexivity of the embedded comparison -/

theorem natCompare_self (n : Nat) : compare n n = Ordering.eq := by
  simp [Nat.compare_eq_eq]

theorem charListCompare_self (l : List Char) : charListCompare l l = Ordering.eq := by
  induction l with
  | nil => rfl
  | cons c cs ih => simp [charListCompare, charCompare, natCompare_self, ih]

theorem identCompare_self (i : Identifier) : identCompare i i = Ordering.eq := by
  cases i with
  | numeric n => simp [identCompare, natCompare_self]
  | alphaNumeric s => simp [identCompare, strCompare, charListCompare_self]

theorem identListCompare_self (l : List Identifier) : identListCompare l l = Ordering.eq := by
  induction l with
  | nil => rfl
  | cons i is ih => simp [identListCompare, identCompare_self, ih]

theorem versionCompare_self (v : Version) : versionCompare v v = Ordering.eq := by
  unfold versionCompare
  simp only [natCompare_self]
  cases h : v.pre with
  | nil => rfl
  | cons i is => simp [identListCompare_self]

/-- **C1.** `is_upgrade_necessary` returns `true` whenever the latest
version is absent; for a present latest `l` and current `c` it returns
exactly whether `l` is strictly greater than `c` in the semver ordering;
and it returns `false` when latest equals current. -/
theorem upgrade_decision_correct :
    (∀ c : Version, is_upgrade_necessary none c = true) ∧
    (∀ l c : Version, is_upgrade_necessary (some l) c = versionGt l c) ∧
    (∀ v : Version, is_upgrade_necessary (some v) v = false) := by
  refine ⟨fun _ => rfl, fun _ _ => rfl, fun v => ?_⟩
  simp only [is_upgrade_necessary, versionGt, versionCompare_self]
  rfl

/-! ## Semver parsing (`semver::Version::parse` as used by the code) -/

/-- Split a character list at every occurrence of a separator (the
semantics of `str::split` on a one-character pattern). -/
def splitOnChar (c : Char) : List Char → List (List Char)
  | [] => [[]]
  | x :: xs =>
    if x = c then [] :: splitOnChar c xs
    else
      match splitOnChar c xs with
      | [] => [[x]]
      | g :: gs => (x :: g) :: gs

/-- Rejoin split groups with the separator (inverse of `splitOnChar` on
its tail groups). -/
def joinWith (c : Char) : List (List Char) → List Char
  | [] => []
  | [g] => g
  | g :: gs => g ++ c :: joinWith c gs

/-- Decimal value of a digit list. -/
def digitsVal (l : List Char) : Nat :=
  l.foldl (fun acc c => acc * 10 + (c.toNat - 48)) 0

/-- Characters admissible in a semver identifier: ASCII alphanumerics
and hyphen. -/
def isIdentChar (c : Char) : Bool := c.isAlphanum || c == '-'

/-- Parse one pre-release/build identifier: all-digit identifiers are
numeric, otherwise alphanumeric over `[0-9A-Za-z-]`. -/
def parseIdentifierChars (l : List Char) : Option Identifier :=
  if l.isEmpty then none
  else if l.all Char.isDigit then some (.numeric (digitsVal l))
  else if l.all isIdentChar then some (.alphaNumeric (String.mk l))
  else none

/-- Parse a list of identifier groups, failing if any group is invalid. -/
def parseIdents : List (List Char) → Option (List Identifier)
  | [] => some []
  | g :: gs =>
    match parseIdentifierChars g, parseIdents gs with
    | some i, some is => some (i :: is)
    | _, _ => none

/-- A numeric version component: nonempty and digits only. -/
def parseNumChars (l : List Char) : Option Nat :=
  if l.isEmpty then none
  else if l.all Char.isDigit then some (digitsVal l)
  else none

/-- `semver::Version::parse` on the underlying characters:
`major.minor.patch`, optionally followed by `-pre` and `+build`; the
build part starts at the first `+`, the pre-release part at the first
`-` after the patch number. -/
def Version.parseChars (l : List Char) : Option Version :=
  let (core, buildStr) :=
    match splitOnChar '+' l with
    | [] => (l, none)
    | [c] => (c, none)
    | c :: rest => (c, some (joinWith '+' rest))
  let (mmp, preStr) :=
    match splitOnChar '-' core with
    | [] => (core, none)
    | [m] => (m, none)
    | m :: rest => (m, some (joinWith '-' rest))
  match splitOnChar '.' mmp with
  | [ma, mi, pa] =>
    match parseNumChars ma, parseNumChars mi, parseNumChars pa with
    | some major, some minor, some patch =>
      match (match preStr with
             | none => some []
             | some p => parseIdents (splitOnChar '.' p)) with
      | none => none
      | some pre =>
        match (match buildStr with
               | none => some []
               | some b => parseIdents (splitOnChar '.' b)) with
        | none => none
        | some build => some ⟨major, minor, patch, pre, build⟩
    | _, _, _ => none
  | _ => none

/-- `semver::Version::parse`. -/
def Version.parse (s : String) : Option Version := Version.parseChars s.data

/-- Display of a `semver::Version` (its `fmt::Display` impl):
`major.minor.patch`, `-` and the pre-release identifiers if any,
`+` and the build identifiers if any. -/
def identToString : Identifier → String
  | .numeric n => toString n
  | .alphaNumeric s => s

def identsToString : List Identifier → String
  | [] => ""
  | [i] => identToString i
  | i :: is => identToString i ++ "." ++ identsToString is

def versionToString (v : Version) : String :=
  toString v.major ++ "." ++ toString v.minor ++ "." ++ toString v.patch
    ++ (if v.pre.isEmpty then "" else "-" ++ identsToString v.pre)
    ++ (if v.build.isEmpty then "" else "+" ++ identsToString v.build)

/-! ## Error type (`DfxError` variants reachable from this module) -/

inductive DfxError where
  | invalidArgument (msg : String)
  | invalidData (msg : String)
  | reqwest
  | io
deriving DecidableEq, Repr

/-! ## Manifest decoding (`deserialize_tags`, `deserialize_versions`) -/

/-- `parse_semver` from `upgrade.rs`: semver parse, mapped to a custom
`invalid SemVer` deserialization error. -/
def parse_semver (s : String) : Except String Version :=
  match Version.parse s with
  | some v => .ok v
  | none => .error ("invalid SemVer: " ++ s)

/-- `HashMap::insert`: replaces any existing binding for the key. The map
is represented as an association list with unique keys. -/
def insertTag (m : List (String × Version)) (k : String) (v : Version) :
    List (String × Version) :=
  m.filter (fun p => p.1 != k) ++ [(k, v)]

/-- `HashMap::get`. -/
def lookupTag (m : List (String × Version)) (k : String) : Option Version :=
  (m.find? (fun p => p.1 == k)).map (fun p => p.2)

/-- Raw manifest after the JSON layer: string-valued tags and version
strings, in document order (later duplicate tag keys overwrite earlier
ones, as with `HashMap` insertion). -/
structure RawManifest where
  tags : List (String × String)
  versions : List String
deriving DecidableEq, Repr

/-- The loop body of `deserialize_tags`: parse each tag value, aborting on
the first invalid one, inserting into the result map. -/
def deserialize_tags_go (acc : List (String × Version)) :
    List (String × String) → Except String (List (String × Version))
  | [] => .ok acc
  | (tag, ver) :: rest =>
    match parse_semver ver with
    | .error e => .error e
    | .ok v => deserialize_tags_go (insertTag acc tag v) rest

/-- `deserialize_tags` from `upgrade.rs`. -/
def deserialize_tags (tags : List (String × String)) :
    Except String (List (String × Version)) :=
  deserialize_tags_go [] tags

/-- `deserialize_versions` from `upgrade.rs`: parse every version string
in order, aborting on the first invalid one. -/
def deserialize_versions : List String → Except String (List Version)
  | [] => .ok []
  | s :: rest =>
    match parse_semver s with
    | .error e => .error e
    | .ok v =>
      match deserialize_versions rest with
      | .error e => .error e
      | .ok r => .ok (v :: r)

/-- The decoded `Manifest` struct. -/
structure Manifest where
  tags : List (String × Version)
  versions : List Version
deriving DecidableEq, Repr

/-- Decoding a `Manifest` from its raw fields: both custom deserializers
must succeed, or the whole decode fails. -/
def decodeManifest (raw : RawManifest) : Except String Manifest :=
  match deserialize_tags raw.tags with
  | .error e => .error e
  | .ok tags =>
    match deserialize_versions raw.versions with
    | .error e => .error e
    | .ok versions => .ok ⟨tags, versions⟩

/-- Last-wins lookup in the raw tag list: the value `HashMap`
deserialization would retain for the key (later duplicates overwrite
earlier ones). -/
def rawLookup : List (String × String) → String → Option String
  | [], _ => none
  | (t, s) :: rest, k =>
    match rawLookup rest k with
    | some v => some v
    | none => if t == k then some s else none

theorem lookupTag_insertTag (acc : List (String × Version)) (t : String)
    (v : Version) (k : String) :
    lookupTag (insertTag acc t v) k = if t == k then some v else lookupTag acc k := by
  induction acc with
  | nil =>
    by_cases h : t = k
    · simp [lookupTag, insertTag, List.find?, h]
    · have hf : (t == k) = false := beq_eq_false_iff_ne.mpr h
      simp [lookupTag, insertTag, List.find?, hf, h]
  | cons p rest ih =>
    by_cases hpt : p.1 = t
    · have hdrop : insertTag (p :: rest) t v = insertTag rest t v := by
        simp [insertTag, List.filter_cons, hpt]
      rw [hdrop, ih]
      by_cases htk : t = k
      · simp [htk]
      · have hpk : (p.1 == k) = false := by
          simp only [beq_eq_false_iff_ne, ne_eq, hpt]
          exact htk
        simp [htk, lookupTag, List.find?_cons, hpk]
    · have hkeep : insertTag (p :: rest) t v = p :: insertTag rest t v := by
        simp [insertTag, List.filter_cons, hpt]
      rw [hkeep]
      by_cases hpk : p.1 = k
      · have htk : (t == k) = false := by
          simp only [beq_eq_false_iff_ne, ne_eq]
          exact fun h => hpt (by rw [h, hpk])
        simp [lookupTag, List.find?_cons, hpk, htk]
      · have hpkf : (p.1 == k) = false := by
          simp only [beq_eq_false_iff_ne, ne_eq]
          exact hpk
        simp only [lookupTag, List.find?_cons, hpkf] at ih ⊢
        exact ih

theorem deserialize_tags_go_lookup (l : List (String × String))
    (acc : List (String × Version)) (r : List (String × Version))
    (h : deserialize_tags_go acc l = .ok r) (k : String) :
    lookupTag r k =
      match rawLookup l k with
      | some s => Version.parse s
      | none => lookupTag acc k := by
  induction l generalizing acc with
  | nil =>
    simp only [deserialize_tags_go] at h
    cases h
    rfl
  | cons p rest ih =>
    obtain ⟨t, s⟩ := p
    simp only [deserialize_tags_go] at h
    cases hp : parse_semver s with
    | error e => rw [hp] at h; cases h
    | ok v =>
      rw [hp] at h
      have := ih (insertTag acc t v) h
      rw [this, lookupTag_insertTag]
      cases hr : rawLookup rest k with
      | some s' => simp [rawLookup, hr]
      | none =>
        by_cases htk : t = k
        · have hps : Version.parse s = some v := by
            unfold parse_semver at hp
            cases hv : Version.parse s <;> rw [hv] at hp <;> simp_all
          simp [rawLookup, hr, htk, hps]
        · simp [rawLookup, hr, htk]

theorem deserialize_tags_go_valid (l : List (String × String))
    (acc : List (String × Version)) (r : List (String × Version))
    (h : deserialize_tags_go acc l = .ok r) :
    ∀ p ∈ l, (Version.parse p.2).isSome := by
  induction l generalizing acc with
  | nil => intro p hp; cases hp
  | cons q rest ih =>
    obtain ⟨t, s⟩ := q
    simp only [deserialize_tags_go] at h
    cases hp : parse_semver s with
    | error e => rw [hp] at h; cases h
    | ok v =>
      rw [hp] at h
      intro p hmem
      rcases List.mem_cons.mp hmem with heq | hmem'
      · subst heq
        unfold parse_semver at hp
        cases hv : Version.parse s <;> rw [hv] at hp <;> simp_all
      · exact ih (insertTag acc t v) h p hmem'

theorem deserialize_tags_go_total (l : List (String × String))
    (acc : List (String × Version))
    (h : ∀ p ∈ l, (Version.parse p.2).isSome) :
    ∃ r, deserialize_tags_go acc l = .ok r := by
  induction l generalizing acc with
  | nil => exact ⟨acc, rfl⟩
  | cons q rest ih =>
    obtain ⟨t, s⟩ := q
    have hs : (Version.parse s).isSome := h (t, s) (List.mem_cons_self _ _)
    cases hv : Version.parse s with
    | none => rw [hv] at hs; cases hs
    | some v =>
      have hp : parse_semver s = .ok v := by unfold parse_semver; rw [hv]
      obtain ⟨r, hr⟩ := ih (insertTag acc t v) (fun p hp => h p (List.mem_cons_of_mem _ hp))
      exact ⟨r, by simp only [deserialize_tags_go, hp]; exact hr⟩

/-- Element-wise semver parse of a string list, failing as a whole if any
element fails. -/
def parseAll : List String → Option (List Version)
  | [] => some []
  | s :: rest =>
    match Version.parse s, parseAll rest with
    | some v, some r => some (v :: r)
    | _, _ => none

theorem deserialize_versions_ok_iff (vs : List String) (r : List Version) :
    deserialize_versions vs = .ok r ↔ parseAll vs = some r := by
  induction vs generalizing r with
  | nil =>
    simp only [deserialize_versions, parseAll]
    exact ⟨fun h => (by cases h; rfl), fun h => (by cases h; rfl)⟩
  | cons s rest ih =>
    simp only [deserialize_versions, parseAll]
    cases hv : Version.parse s with
    | none =>
      have hp : parse_semver s = .error ("invalid SemVer: " ++ s) := by
        unfold parse_semver; rw [hv]
      rw [hp]
      exact ⟨fun h => (by cases h), fun h => (by cases h)⟩
    | some v =>
      have hp : parse_semver s = .ok v := by unfold parse_semver; rw [hv]
      rw [hp]
      cases hrest : deserialize_versions rest with
      | error e =>
        cases hm : parseAll rest with
        | none => exact ⟨fun h => (by cases h), fun h => (by cases h)⟩
        | some r' =>
          have := (ih r').mpr hm
          rw [hrest] at this; cases this
      | ok r' =>
        have hm : parseAll rest = some r' := (ih r').mp hrest
        rw [hm]
        exact ⟨fun h => (by cases h; rfl), fun h => (by cases h; rfl)⟩

theorem deserialize_versions_total (vs : List String)
    (h : ∀ s ∈ vs, (Version.parse s).isSome) :
    ∃ r, deserialize_versions vs = .ok r := by
  induction vs with
  | nil => exact ⟨[], rfl⟩
  | cons s rest ih =>
    have hs : (Version.parse s).isSome := h s (List.mem_cons_self _ _)
    cases hv : Version.parse s with
    | none => rw [hv] at hs; cases hs
    | some v =>
      obtain ⟨r, hr⟩ := ih (fun s' hs' => h s' (List.mem_cons_of_mem _ hs'))
      have hp : parse_semver s = .ok v := by unfold parse_semver; rw [hv]
      exact ⟨v :: r, by simp only [deserialize_versions, hp, hr]⟩

theorem deserialize_versions_valid (vs : List String) (r : List Version)
    (h : deserialize_versions vs = .ok r) :
    ∀ s ∈ vs, (Version.parse s).isSome := by
  induction vs generalizing r with
  | nil => intro s hs; cases hs
  | cons a rest ih =>
    simp only [deserialize_versions] at h
    cases ha : parse_semver a with
    | error e => rw [ha] at h; cases h
    | ok va =>
      rw [ha] at h
      cases hrest : deserialize_versions rest with
      | error e => rw [hrest] at h; cases h
      | ok r' =>
        intro s hs
        rcases List.mem_cons.mp hs with heq | hmem
        · subst heq
          unfold parse_semver at ha
          cases hv : Version.parse s <;> rw [hv] at ha <;> simp_all
        · exact ih r' hrest s hmem

/-- **C2.** Manifest decoding is all-or-nothing: the decode succeeds
exactly when every tag value and every versions element is syntactically
valid semver; on success every field is parsed (the versions list is the
element-wise parse of the raw list, and every tag lookup is the parse of
the raw last-wins lookup), and otherwise the whole decode fails with a
parse error and no partial manifest. -/
theorem manifest_decode_all_or_nothing (raw : RawManifest) :
    ((∃ m, decodeManifest raw = .ok m) ↔
      ((∀ p ∈ raw.tags, (Version.parse p.2).isSome) ∧
       (∀ s ∈ raw.versions, (Version.parse s).isSome))) ∧
    (∀ m, decodeManifest raw = .ok m →
      parseAll raw.versions = some m.versions ∧
      ∀ k, lookupTag m.tags k = (rawLookup raw.tags k).bind Version.parse) ∧
    (¬ ((∀ p ∈ raw.tags, (Version.parse p.2).isSome) ∧
        (∀ s ∈ raw.versions, (Version.parse s).isSome)) →
      ∃ e, decodeManifest raw = .error e) := by
  have hA : (∃ m, decodeManifest raw = .ok m) ↔
      ((∀ p ∈ raw.tags, (Version.parse p.2).isSome) ∧
       (∀ s ∈ raw.versions, (Version.parse s).isSome)) := by
    constructor
    · rintro ⟨m, hm⟩
      unfold decodeManifest at hm
      cases ht : deserialize_tags raw.tags with
      | error e => rw [ht] at hm; cases hm
      | ok tags =>
        rw [ht] at hm
        cases hv : deserialize_versions raw.versions with
        | error e => rw [hv] at hm; cases hm
        | ok versions =>
          exact ⟨deserialize_tags_go_valid raw.tags [] tags ht,
                 deserialize_versions_valid raw.versions versions hv⟩
    · rintro ⟨htags, hvers⟩
      obtain ⟨tr, htr⟩ := deserialize_tags_go_total raw.tags [] htags
      obtain ⟨vr, hvr⟩ := deserialize_versions_total raw.versions hvers
      exact ⟨⟨tr, vr⟩, by simp only [decodeManifest, deserialize_tags, htr, hvr]⟩
  refine ⟨hA, fun m hm => ?_, fun hbad => ?_⟩
  · unfold decodeManifest at hm
    cases ht : deserialize_tags raw.tags with
    | error e => rw [ht] at hm; cases hm
    | ok tags =>
      rw [ht] at hm
      cases hv : deserialize_versions raw.versions with
      | error e => rw [hv] at hm; cases hm
      | ok versions =>
        rw [hv] at hm
        cases hm
        constructor
        · exact (deserialize_versions_ok_iff raw.versions versions).mp hv
        · intro k
          have := deserialize_tags_go_lookup raw.tags [] tags ht k
          rw [this]
          cases hr : rawLookup raw.tags k with
          | some s => simp
          | none => simp [lookupTag, List.find?]
  · cases hd : decodeManifest raw with
    | error e => exact ⟨e, rfl⟩
    | ok m => exact absurd (hA.mp ⟨m, hd⟩) hbad

/-- Witness for C2: the test-suite manifest decodes with both fields
fully parsed, and a manifest carrying a non-semver tag value fails as a
whole. -/
theorem manifest_decode_all_or_nothing_witness :
    parseAll ["0.3.1", "0.4.0", "0.4.1"] =
      some [⟨0, 3, 1, [], []⟩, ⟨0, 4, 0, [], []⟩, ⟨0, 4, 1, [], []⟩] ∧
    (∃ e, decodeManifest ⟨[("latest", "not-a-version")], []⟩ = .error e) :=
  ⟨((manifest_decode_all_or_nothing
      ⟨[("latest", "0.4.1")], ["0.3.1", "0.4.0", "0.4.1"]⟩).2.1
      ⟨[("latest", ⟨0, 4, 1, [], []⟩)],
        [⟨0, 3, 1, [], []⟩, ⟨0, 4, 0, [], []⟩, ⟨0, 4, 1, [], []⟩]⟩ (by rfl)).1,
   (manifest_decode_all_or_nothing ⟨[("latest", "not-a-version")], []⟩).2.2
     (by intro h; exact absurd (h.1 ("latest", "not-a-version") (by simp)) (by decide))⟩

/-! ## HTTP status handling (`get_latest_version`) -/

/-- `http::StatusCode::is_success`: 2xx statuses. -/
def statusIsSuccess (s : Nat) : Bool := 200 ≤ s && s < 300

/-- `http::StatusCode::canonical_reason`: the IANA canonical reason
phrase table. -/
def canonicalReason : Nat → Option String
  | 100 => some "Continue"
  | 101 => some "Switching Protocols"
  | 102 => some "Processing"
  | 200 => some "OK"
  | 201 => some "Created"
  | 202 => some "Accepted"
  | 203 => some "Non-Authoritative Information"
  | 204 => some "No Content"
  | 205 => some "Reset Content"
  | 206 => some "Partial Content"
  | 207 => some "Multi-Status"
  | 208 => some "Already Reported"
  | 226 => some "IM Used"
  | 300 => some "Multiple Choices"
  | 301 => some "Moved Permanently"
  | 302 => some "Found"
  | 303 => some "See Other"
  | 304 => some "Not Modified"
  | 305 => some "Use Proxy"
  | 307 => some "Temporary Redirect"
  | 308 => some "Permanent Redirect"
  | 400 => some "Bad Request"
  | 401 => some "Unauthorized"
  | 402 => some "Payment Required"
  | 403 => some "Forbidden"
  | 404 => some "Not Found"
  | 405 => some "Method Not Allowed"
  | 406 => some "Not Acceptable"
  | 407 => some "Proxy Authentication Required"
  | 408 => some "Request Timeout"
  | 409 => some "Conflict"
  | 410 => some "Gone"
  | 411 => some "Length Required"
  | 412 => some "Precondition Failed"
  | 413 => some "Payload Too Large"
  | 414 => some "URI Too Long"
  | 415 => some "Unsupported Media Type"
  | 416 => some "Range Not Satisfiable"
  | 417 => some "Expectation Failed"
  | 418 => some "I\x27m a teapot"
  | 421 => some "Misdirected Request"
  | 422 => some "Unprocessable Entity"
  | 423 => some "Locked"
  | 424 => some "Failed Dependency"
  | 426 => some "Upgrade Required"
  | 428 => some "Precondition Required"
  | 429 => some "Too Many Requests"
  | 431 => some "Request Header Fields Too Large"
  | 451 => some "Unavailable For Legal Reasons"
  | 500 => some "Internal Server Error"
  | 501 => some "Not Implemented"
  | 502 => some "Bad Gateway"
  | 503 => some "Service Unavailable"
  | 504 => some "Gateway Timeout"
  | 505 => some "HTTP Version Not Supported"
  | 506 => some "Variant Also Negotiates"
  | 507 => some "Insufficient Storage"
  | 508 => some "Loop Detected"
  | 510 => some "Not Extended"
  | 511 => some "Network Authentication Required"
  | _ => none

/-- An HTTP response to the manifest request, after the JSON layer:
its status code and, when the body is valid JSON of the right shape, the
raw string-valued manifest fields (`none` models a body that is not valid
JSON for a `Manifest`). -/
structure HttpResponse where
  status : Nat
  body : Option RawManifest
deriving DecidableEq, Repr

/-- The response-processing tail of `get_latest_version` from
`upgrade.rs`: reject non-success statuses with the canonical reason
phrase (or "unknown error"), decode the manifest body, then look up the
`latest` tag, failing with the missing-field error when absent. -/
def getLatestVersionResp (resp : HttpResponse) : Except DfxError Version :=
  if !statusIsSuccess resp.status then
    .error (.invalidData
      ("unable to fetch manifest: " ++ (canonicalReason resp.status).getD "unknown error"))
  else
    match resp.body with
    | none => .error (.invalidData "invalid manifest: invalid JSON")
    | some raw =>
      match decodeManifest raw with
      | .error e => .error (.invalidData ("invalid manifest: " ++ e))
      | .ok m =>
        match lookupTag m.tags "latest" with
        | none => .error (.invalidData "expected field 'latest' in 'tags'")
        | some v => .ok v

/-- **C4.** A non-success HTTP status makes `get_latest_version` fail
with the remote error carrying the status's canonical reason phrase, or
"unknown error" when none exists; no version is produced. -/
theorem non_success_status_yields_remote_error (resp : HttpResponse)
    (h : statusIsSuccess resp.status = false) :
    getLatestVersionResp resp =
      .error (.invalidData
        ("unable to fetch manifest: " ++ (canonicalReason resp.status).getD "unknown error")) ∧
    ∀ v : Version, getLatestVersionResp resp ≠ .ok v := by
  have he : getLatestVersionResp resp =
      .error (.invalidData
        ("unable to fetch manifest: " ++ (canonicalReason resp.status).getD "unknown error")) := by
    unfold getLatestVersionResp
    rw [h]
    rfl
  exact ⟨he, fun v hv => by rw [he] at hv; cases hv⟩

/-- Witness for C4 at a 404 response (canonical reason present) and a
599 response (no canonical reason). -/
theorem non_success_status_yields_remote_error_witness :
    getLatestVersionResp ⟨404, none⟩ =
      .error (.invalidData "unable to fetch manifest: Not Found") ∧
    getLatestVersionResp ⟨599, none⟩ =
      .error (.invalidData "unable to fetch manifest: unknown error") :=
  ⟨(non_success_status_yields_remote_error ⟨404, none⟩ (by decide)).1,
   (non_success_status_yields_remote_error ⟨599, none⟩ (by decide)).1⟩

theorem getLatestVersionResp_success (resp : HttpResponse) (raw : RawManifest)
    (m : Manifest) (hs : statusIsSuccess resp.status = true)
    (hb : resp.body = some raw) (hd : decodeManifest raw = .ok m) :
    getLatestVersionResp resp =
      match lookupTag m.tags "latest" with
      | none => .error (.invalidData "expected field 'latest' in 'tags'")
      | some v => .ok v := by
  unfold getLatestVersionResp
  rw [hs, hb]
  show (match decodeManifest raw with
    | .error e => (.error (.invalidData ("invalid manifest: " ++ e)) : Except DfxError Version)
    | .ok m' =>
      match lookupTag m'.tags "latest" with
      | none => .error (.invalidData "expected field 'latest' in 'tags'")
      | some v => .ok v) = _
  rw [hd]

/-- **C5.** On a successfully decoded manifest, resolving the latest
version fails with the missing-field error exactly when the `tags`
mapping has no "latest" key, and otherwise returns precisely the version
stored under that key. -/
theorem resolve_latest_missing_field (resp : HttpResponse) (raw : RawManifest)
    (m : Manifest) (hs : statusIsSuccess resp.status = true)
    (hb : resp.body = some raw) (hd : decodeManifest raw = .ok m) :
    (lookupTag m.tags "latest" = none →
      getLatestVersionResp resp =
        .error (.invalidData "expected field 'latest' in 'tags'")) ∧
    (∀ v, lookupTag m.tags "latest" = some v → getLatestVersionResp resp = .ok v) := by
  have h1 := getLatestVersionResp_success resp raw m hs hb hd
  refine ⟨fun hl => ?_, fun v hl => ?_⟩ <;> rw [h1, hl]

/-- Witness for C5: a manifest without a "latest" tag resolves to the
missing-field error; one with it resolves to the stored version. -/
theorem resolve_latest_missing_field_witness :
    getLatestVersionResp ⟨200, some ⟨[("stable", "1.0.0")], []⟩⟩ =
      .error (.invalidData "expected field 'latest' in 'tags'") ∧
    getLatestVersionResp ⟨200, some ⟨[("latest", "0.4.1")], ["0.4.1"]⟩⟩ =
      .ok ⟨0, 4, 1, [], []⟩ :=
  ⟨(resolve_latest_missing_field ⟨200, some ⟨[("stable", "1.0.0")], []⟩⟩
      ⟨[("stable", "1.0.0")], []⟩ ⟨[("stable", ⟨1, 0, 0, [], []⟩)], []⟩
      (by decide) rfl (by rfl)).1 (by decide),
   (resolve_latest_missing_field ⟨200, some ⟨[("latest", "0.4.1")], ["0.4.1"]⟩⟩
      ⟨[("latest", "0.4.1")], ["0.4.1"]⟩ ⟨[("latest", ⟨0, 4, 1, [], []⟩)], [⟨0, 4, 1, [], []⟩]⟩
      (by decide) rfl (by rfl)).2 ⟨0, 4, 1, [], []⟩ (by decide)⟩

/-- **C10.** The version resolved by a successful `get_latest_version`
depends only on the "latest" entry of the decoded tags: two successful
responses whose decoded manifests agree on `tags["latest"]` resolve
identically, whatever their `versions` lists or other tags. -/
theorem latest_depends_only_on_latest_tag
    (r1 r2 : HttpResponse) (raw1 raw2 : RawManifest) (m1 m2 : Manifest)
    (hs1 : statusIsSuccess r1.status = true) (hb1 : r1.body = some raw1)
    (hd1 : decodeManifest raw1 = .ok m1)
    (hs2 : statusIsSuccess r2.status = true) (hb2 : r2.body = some raw2)
    (hd2 : decodeManifest raw2 = .ok m2)
    (hagree : lookupTag m1.tags "latest" = lookupTag m2.tags "latest") :
    getLatestVersionResp r1 = getLatestVersionResp r2 := by
  rw [getLatestVersionResp_success r1 raw1 m1 hs1 hb1 hd1,
    getLatestVersionResp_success r2 raw2 m2 hs2 hb2 hd2, hagree]

/-- Witness for C10: two manifests with different `versions` lists and
extra tags but the same "latest" value resolve to the same version. -/
theorem latest_depends_only_on_latest_tag_witness :
    getLatestVersionResp ⟨200, some ⟨[("latest", "0.4.1")], ["0.3.1", "0.4.0", "0.4.1"]⟩⟩ =
      getLatestVersionResp ⟨204, some ⟨[("beta", "0.5.0"), ("latest", "0.4.1")], []⟩⟩ :=
  latest_depends_only_on_latest_tag
    ⟨200, some ⟨[("latest", "0.4.1")], ["0.3.1", "0.4.0", "0.4.1"]⟩⟩
    ⟨204, some ⟨[("beta", "0.5.0"), ("latest", "0.4.1")], []⟩⟩
    ⟨[("latest", "0.4.1")], ["0.3.1", "0.4.0", "0.4.1"]⟩
    ⟨[("beta", "0.5.0"), ("latest", "0.4.1")], []⟩
    ⟨[("latest", ⟨0, 4, 1, [], []⟩)],
      [⟨0, 3, 1, [], []⟩, ⟨0, 4, 0, [], []⟩, ⟨0, 4, 1, [], []⟩]⟩
    ⟨[("beta", ⟨0, 5, 0, [], []⟩), ("latest", ⟨0, 4, 1, [], []⟩)], []⟩
    (by decide) rfl (by rfl) (by decide) rfl (by rfl) (by decide)

/-! ## Release URL construction (`get_latest_release`) -/

/-- Interpreter for Rust `format!` positional substitution: `{i}` is
replaced by the i-th argument; everything else is copied verbatim. -/
def formatGo (args : List String) : List Char → List Char
  | [] => []
  | '\x7b' :: d :: '\x7d' :: rest =>
    if d.isDigit then (args.getD (d.toNat - 48) "").data ++ formatGo args rest
    else '\x7b' :: d :: '\x7d' :: formatGo args rest
  | c :: rest => c :: formatGo args rest

def rustFormat (fmt : String) (args : List String) : String :=
  String.mk (formatGo args fmt.data)

/-- The release download URL built by `get_latest_release`:
`format!("{0}/downloads/dfx/{1}/{2}/dfx-{1}.tar.gz", release_root, version, arch)`. -/
def get_latest_release_url (release_root : String) (version : Version) (arch : String) :
    String :=
  rustFormat "{0}/downloads/dfx/{1}/{2}/dfx-{1}.tar.gz"
    [release_root, versionToString version, arch]

/-- **C7.** For every release root, version and architecture tag, the
release URL is exactly
`{root}/downloads/dfx/{version}/{arch}/dfx-{version}.tar.gz`, the version
appearing both as a directory component and in the archive name. -/
theorem release_url_format (r : String) (v : Version) (a : String) :
    get_latest_release_url r v a =
      r ++ "/downloads/dfx/" ++ versionToString v ++ "/" ++ a
        ++ "/dfx-" ++ versionToString v ++ ".tar.gz" := by
  apply String.ext
  simp [get_latest_release_url, rustFormat, formatGo, List.getD, String.data_append]

/-! ## Filesystem model and `get_latest_release` -/

/-- One archive entry: a path relative to the unpack directory, its file
content and its mode bits. -/
structure Entry where
  path : String
  content : String
  mode : Nat
deriving DecidableEq, Repr

/-- One step of `Archive::unpack`: an entry extracted in full, or the
archive stream failing after only `written` characters of the entry's
content reached disk (a truncated download or malformed archive). -/
inductive ExtractStep where
  | full (e : Entry)
  | failAfter (e : Entry) (written : Nat)
deriving DecidableEq, Repr

/-- A file's on-disk state. -/
structure FileData where
  content : String
  mode : Nat
deriving DecidableEq, Repr

/-- The filesystem: an association of absolute paths to file data. -/
abbrev FS := List (String × FileData)

/-- Writing a file: replaces any previous file at the path. -/
def fsWrite (fs : FS) (p : String) (d : FileData) : FS :=
  (p, d) :: fs.filter (fun q => q.1 != p)

/-- Reading a file (or its metadata). -/
def fsGet (fs : FS) (p : String) : Option FileData :=
  (fs.find? (fun q => q.1 == p)).map (fun q => q.2)

def pathJoin (dir p : String) : String := dir ++ "/" ++ p

/-- `Archive::unpack(dir)`: entries are written sequentially into `dir`,
each overwriting any existing file at its path; a stream failure leaves
the partially written entry on disk and aborts with an error. -/
def unpackArchive (dir : String) : List ExtractStep → FS → FS × Option String
  | [], fs => (fs, none)
  | .full e :: rest, fs =>
    unpackArchive dir rest (fsWrite fs (pathJoin dir e.path) ⟨e.content, e.mode⟩)
  | .failAfter e written :: _, fs =>
    (fsWrite fs (pathJoin dir e.path) ⟨String.mk (e.content.data.take written), e.mode⟩,
      some "archive stream failure")

/-- The non-filesystem environment of one `get_latest_release` run:
whether the HTTP GET succeeds, whether the body is valid gzip, the
archive's extraction steps, and the directory and name of the running
executable. -/
structure ReleaseEnv where
  downloadOk : Bool
  gzipOk : Bool
  steps : List ExtractStep
  exeDir : String
  exeName : String
deriving DecidableEq, Repr

/-- The absolute path of the running executable
(`env::current_exe()`). -/
def ReleaseEnv.exePath (env : ReleaseEnv) : String := pathJoin env.exeDir env.exeName

/-- `get_latest_release` from `upgrade.rs`: build the release URL,
download, gunzip, unpack the tar archive **directly into the directory
of the running executable**, then force the executable's permission bits
to `0o775`. Returns the final filesystem and the call's result. -/
def get_latest_release (release_root : String) (version : Version) (arch : String)
    (env : ReleaseEnv) (fs : FS) : FS × Except DfxError Unit :=
  if !env.downloadOk then (fs, .error .reqwest)
  else if !env.gzipOk then (fs, .error (.invalidData "unable to gunzip file"))
  else
    match unpackArchive env.exeDir env.steps fs with
    | (fs', some _) => (fs', .error .io)
    | (fs', none) =>
      match fsGet fs' env.exePath with
      | none => (fs', .error .io)
      | some d => (fsWrite fs' env.exePath ⟨d.content, 509⟩, .ok ())

/-- **C8.** Whenever `get_latest_release` succeeds, the replaced
executable's permission bits are exactly `0o775` (decimal 509) in the
final filesystem, regardless of the mode any archive entry carried and of
the previous binary's mode. -/
theorem installer_forces_mode_775 (release_root : String) (version : Version)
    (arch : String) (env : ReleaseEnv) (fs : FS)
    (h : (get_latest_release release_root version arch env fs).2 = .ok ()) :
    ∃ d : FileData,
      fsGet (get_latest_release release_root version arch env fs).1 env.exePath = some d ∧
      d.mode = 509 := by
  unfold get_latest_release at h ⊢
  split at h
  · cases h
  · split at h
    · cases h
    · split at h
      · cases h
      · rename_i fs' hun
        split at h
        · cases h
        · rename_i d hget
          refine ⟨⟨d.content, 509⟩, ?_, rfl⟩
          simp_all [fsGet, fsWrite, List.find?]

/-- Witness for C8: a successful run over an archive entry that arrived
with mode `0o644` (420) still leaves the executable at mode 509. -/
theorem installer_forces_mode_775_witness :
    ∃ d : FileData,
      fsGet (get_latest_release "https://sdk.dfinity.org" ⟨0, 4, 1, [], []⟩ "x86_64-linux"
          ⟨true, true, [.full ⟨"dfx", "NEWBINARY", 420⟩], "/usr/local/bin", "dfx"⟩
          [("/usr/local/bin/dfx", ⟨"OLDBINARY", 493⟩)]).1
        (ReleaseEnv.exePath
          ⟨true, true, [.full ⟨"dfx", "NEWBINARY", 420⟩], "/usr/local/bin", "dfx"⟩) = some d ∧
      d.mode = 509 :=
  installer_forces_mode_775 "https://sdk.dfinity.org" ⟨0, 4, 1, [], []⟩ "x86_64-linux"
    ⟨true, true, [.full ⟨"dfx", "NEWBINARY", 420⟩], "/usr/local/bin", "dfx"⟩
    [("/usr/local/bin/dfx", ⟨"OLDBINARY", 493⟩)] (by rfl)

/-- **C3 (refuted; the code unpacks in place).** A concrete run in which
the archive stream fails mid-entry while extracting over the live
executable: `get_latest_release` returns an error, yet the pre-upgrade
executable at `/usr/local/bin/dfx` has been truncated from the old
9-character binary to the first 3 characters of the new content — the
new content was written directly to the live executable's path, not to a
distinct location. -/
theorem failed_unpack_truncates_live_executable :
    (get_latest_release "https://sdk.dfinity.org" ⟨0, 4, 1, [], []⟩ "x86_64-linux"
        ⟨true, true, [.failAfter ⟨"dfx", "NEWBINARY", 420⟩ 3], "/usr/local/bin", "dfx"⟩
        [("/usr/local/bin/dfx", ⟨"OLDBINARY", 509⟩)]).2 = .error .io ∧
    fsGet (get_latest_release "https://sdk.dfinity.org" ⟨0, 4, 1, [], []⟩ "x86_64-linux"
        ⟨true, true, [.failAfter ⟨"dfx", "NEWBINARY", 420⟩ 3], "/usr/local/bin", "dfx"⟩
        [("/usr/local/bin/dfx", ⟨"OLDBINARY", 509⟩)]).1 "/usr/local/bin/dfx" =
      some ⟨"NEW", 420⟩ :=
  ⟨by rfl, by rfl⟩

/-! ## `exec`: the upgrade subcommand's control flow -/

/-- A network request issued during one `exec` run. -/
inductive NetCall where
  | manifest
  | release (url : String)
deriving DecidableEq, Repr

def NetCall.isRelease : NetCall → Bool
  | .release _ => true
  | _ => false

/-- The outcome of one `exec` run: a panic (process abort), a returned
error, or success. -/
inductive ExecResult where
  | panicked (msg : String)
  | failed (e : DfxError)
  | succeeded
deriving DecidableEq, Repr

/-- The fixed host-OS-to-architecture table of `exec`; `none` models the
`panic!("Not supported architecture")` arm. -/
def osArch : String → Option String
  | "linux" => some "x86_64-linux"
  | "macos" => some "x86_64-darwin"
  | _ => none

/-- The ambient world of one `exec` run: the host OS identifier, the
version-environment collaborator's version string, validity of the
release root as a URL, the manifest response, and the release fetch
environment and filesystem. -/
structure ExecEnv where
  os : String
  envVersion : String
  releaseRootValid : Bool
  manifestResp : HttpResponse
  releaseEnv : ReleaseEnv
  fs : FS
deriving Repr

/-- The parsed command-line arguments relevant to `exec`:
`--current-version` (optional override) and `--release-root`
(always present via its default). -/
structure ExecArgs where
  currentVersionArg : Option String
  releaseRoot : String
deriving Repr

/-- `exec` from `upgrade.rs`, with the network requests it issues as an
explicit trace: resolve the architecture (panicking on an unsupported
OS), parse the current version, fetch the manifest and resolve the
latest version, and download the release exactly when the latest version
is strictly newer. -/
def exec (env : ExecEnv) (args : ExecArgs) : ExecResult × List NetCall :=
  match osArch env.os with
  | none => (.panicked "Not supported architecture", [])
  | some os_arch =>
    match Version.parse (args.currentVersionArg.getD env.envVersion) with
    | none => (.failed (.invalidData "invalid version"), [])
    | some current_version =>
      if !env.releaseRootValid then (.failed (.invalidArgument "invalid release root"), [])
      else
        match getLatestVersionResp env.manifestResp with
        | .error e => (.failed e, [.manifest])
        | .ok latest_version =>
          if versionGt latest_version current_version then
            match get_latest_release args.releaseRoot latest_version os_arch
                env.releaseEnv env.fs with
            | (_, .error e) =>
              (.failed e,
                [.manifest,
                 .release (get_latest_release_url args.releaseRoot latest_version os_arch)])
            | (_, .ok _) =>
              (.succeeded,
                [.manifest,
                 .release (get_latest_release_url args.releaseRoot latest_version os_arch)])
          else (.succeeded, [.manifest])

/-- **C6.** The architecture tag comes from the fixed table mapping
"linux" to "x86_64-linux" and "macos" to "x86_64-darwin"; on any other
host OS identifier, `exec` panics (it does not return an error value)
with an empty network trace — before any network call. -/
theorem unsupported_platform_aborts :
    osArch "linux" = some "x86_64-linux" ∧
    osArch "macos" = some "x86_64-darwin" ∧
    ∀ (env : ExecEnv) (args : ExecArgs), env.os ≠ "linux" → env.os ≠ "macos" →
      exec env args = (.panicked "Not supported architecture", []) := by
  refine ⟨rfl, rfl, fun env args h1 h2 => ?_⟩
  have hos : osArch env.os = none := by
    unfold osArch
    split
    · rename_i heq
      exact absurd heq h1
    · rename_i heq
      exact absurd heq h2
    · rfl
  unfold exec
  rw [hos]

/-- Witness for C6 at the host OS identifier "windows". -/
theorem unsupported_platform_aborts_witness :
    exec ⟨"windows", "0.4.0", true, ⟨200, none⟩, ⟨true, true, [], "/bin", "dfx"⟩, []⟩
        ⟨none, "https://sdk.dfinity.org"⟩ =
      (.panicked "Not supported architecture", []) :=
  unsupported_platform_aborts.2.2
    ⟨"windows", "0.4.0", true, ⟨200, none⟩, ⟨true, true, [], "/bin", "dfx"⟩, []⟩
    ⟨none, "https://sdk.dfinity.org"⟩ (by decide) (by decide)

/-- **C9.** Once the architecture is resolved, the current version parsed
and the manifest fetch successful, `exec` issues the release download
exactly when `is_upgrade_necessary (some latest) current` holds, and when
it does not, returns success with only the manifest request issued. -/
theorem exec_downloads_iff_upgrade_necessary
    (env : ExecEnv) (args : ExecArgs) (os_arch : String) (current latest : Version)
    (hos : osArch env.os = some os_arch)
    (hcur : Version.parse (args.currentVersionArg.getD env.envVersion) = some current)
    (hroot : env.releaseRootValid = true)
    (hlat : getLatestVersionResp env.manifestResp = .ok latest) :
    ((exec env args).2.any NetCall.isRelease = is_upgrade_necessary (some latest) current) ∧
    (is_upgrade_necessary (some latest) current = false →
      exec env args = (.succeeded, [.manifest])) := by
  simp only [exec, hos, hcur, hroot, Bool.not_true, hlat]
  cases hgt : versionGt latest current with
  | false =>
    refine ⟨?_, fun _ => ?_⟩
    · simp [is_upgrade_necessary, hgt, NetCall.isRelease]
    · simp
  | true =>
    cases hrel : get_latest_release args.releaseRoot latest os_arch env.releaseEnv env.fs with
    | mk fs' res =>
      cases res with
      | error e =>
        refine ⟨?_, fun hfalse => ?_⟩
        · simp [hrel, is_upgrade_necessary, hgt, NetCall.isRelease]
        · rw [is_upgrade_necessary] at hfalse
          rw [hgt] at hfalse
          cases hfalse
      | ok u =>
        refine ⟨?_, fun hfalse => ?_⟩
        · simp [hrel, is_upgrade_necessary, hgt, NetCall.isRelease]
        · rw [is_upgrade_necessary] at hfalse
          rw [hgt] at hfalse
          cases hfalse

/-- Witness for C9: with latest equal to current (0.4.1), `exec` returns
success having issued only the manifest request. -/
theorem exec_downloads_iff_upgrade_necessary_witness :
    exec ⟨"linux", "0.4.1", true, ⟨200, some ⟨[("latest", "0.4.1")], ["0.4.1"]⟩⟩,
        ⟨true, true, [], "/bin", "dfx"⟩, []⟩ ⟨none, "https://sdk.dfinity.org"⟩ =
      (.succeeded, [.manifest]) :=
  (exec_downloads_iff_upgrade_necessary
    ⟨"linux", "0.4.1", true, ⟨200, some ⟨[("latest", "0.4.1")], ["0.4.1"]⟩⟩,
      ⟨true, true, [], "/bin", "dfx"⟩, []⟩ ⟨none, "https://sdk.dfinity.org"⟩
    "x86_64-linux" ⟨0, 4, 1, [], []⟩ ⟨0, 4, 1, [], []⟩
    rfl (by rfl) rfl (by rfl)).2 (by rfl)

end Upgrade
